import Mathlib

/-!
Shallow embedding of the weekly Slack backup / report scripts:
`scripts/korean_holidays.py`, `scripts/backup_slack.py` and
`scripts/generate_report.py`.

Conventions of the embedding:
* Python strings are `String`; Python string comparison (used by `list.sort`
  with a string key and by `sorted(..., reverse=True)` on file names) is the
  code-point lexicographic order `pyStrLe`.
* `float(ts)` on a Slack timestamp string `"<digits>.<digits>"` is modelled
  exactly as a rational number (`parseTs`).
* Python dicts keyed by `ts` are association lists `List (String × Msg)` in
  insertion order; `dictInsert` has Python's update semantics (overwrite in
  place, append when new).
* External calls (Slack pagination, thread fetch, user lookup, file reads)
  are oracle parameters; raised `SlackApiError`s are `Except.error` results.
* `sys.exit(1)` and uncaught exceptions are the `RunResult.aborted` outcome.
-/

/-- Calendar date (year, month, day), as Python `datetime.date`. -/
structure Date where
  year : Int
  month : Int
  day : Int
deriving DecidableEq, Repr

/-- Days since 1970-01-01 of a proleptic-Gregorian civil date. -/
def daysFromCivil (dt : Date) : Int :=
  let y := if dt.month ≤ 2 then dt.year - 1 else dt.year
  let era := y.fdiv 400
  let yoe := y - era * 400
  let mp := (dt.month + 9).emod 12
  let doy := (153 * mp + 2).fdiv 5 + dt.day - 1
  let doe := yoe * 365 + yoe.fdiv 4 - yoe.fdiv 100 + doy
  era * 146097 + doe - 719468

/-- Civil date of a count of days since 1970-01-01. -/
def civilFromDays (z0 : Int) : Date :=
  let z := z0 + 719468
  let era := z.fdiv 146097
  let doe := z - era * 146097
  let yoe := (doe - doe.fdiv 1460 + doe.fdiv 36524 - doe.fdiv 146096).fdiv 365
  let y := yoe + era * 400
  let doy := doe - (365 * yoe + yoe.fdiv 4 - yoe.fdiv 100)
  let mp := (5 * doy + 2).fdiv 153
  let d := doy - (153 * mp + 2).fdiv 5 + 1
  let m := mp + (if mp < 10 then 3 else -9)
  { year := if m ≤ 2 then y + 1 else y, month := m, day := d }

/-- Python `date.weekday()`: Monday = 0, ..., Sunday = 6. -/
def Date.weekday (dt : Date) : Int :=
  (daysFromCivil dt + 3).emod 7

/-- Date shifted by a number of days (`date + timedelta(days=n)`). -/
def addDays (d : Date) (n : Int) : Date :=
  civilFromDays (daysFromCivil d + n)

/-- Static holiday table `KOREAN_HOLIDAYS` of `scripts/korean_holidays.py`
(2026 Korean public holidays plus substitute holidays). -/
def KOREAN_HOLIDAYS : List (Date × String) :=
  [ (⟨2026, 1, 1⟩, "sinjeong"),
    (⟨2026, 1, 27⟩, "seollal-eve"),
    (⟨2026, 1, 28⟩, "seollal"),
    (⟨2026, 1, 29⟩, "seollal+1"),
    (⟨2026, 3, 1⟩, "samiljeol"),
    (⟨2026, 3, 2⟩, "samiljeol-sub"),
    (⟨2026, 5, 5⟩, "children-day"),
    (⟨2026, 5, 24⟩, "buddha-birthday"),
    (⟨2026, 5, 25⟩, "buddha-sub"),
    (⟨2026, 6, 6⟩, "memorial-day"),
    (⟨2026, 8, 15⟩, "liberation-day"),
    (⟨2026, 8, 17⟩, "liberation-sub"),
    (⟨2026, 9, 14⟩, "chuseok-eve"),
    (⟨2026, 9, 15⟩, "chuseok"),
    (⟨2026, 9, 16⟩, "chuseok+1"),
    (⟨2026, 10, 3⟩, "gaecheonjeol"),
    (⟨2026, 10, 5⟩, "gaecheonjeol-sub"),
    (⟨2026, 10, 9⟩, "hangul-day"),
    (⟨2026, 12, 25⟩, "christmas") ]

/-- Function `is_korean_holiday` of `scripts/korean_holidays.py`. -/
def is_korean_holiday (d : Date) : Bool × String :=
  match KOREAN_HOLIDAYS.lookup d with
  | some name => (true, name)
  | none => (false, "")

/-- Function `is_business_day` of `scripts/korean_holidays.py`. -/
def is_business_day (d : Date) : Bool :=
  if d.weekday ≥ 5 then false
  else if (KOREAN_HOLIDAYS.lookup d).isSome then false
  else true

/-- Strict lexicographic order on sequences of naturals. -/
def natSeqLt : List Nat → List Nat → Bool
  | [], [] => false
  | [], _ :: _ => true
  | _ :: _, [] => false
  | a :: as, b :: bs =>
    if a < b then true
    else if b < a then false
    else natSeqLt as bs

/-- Code points of a string. -/
def codePoints (s : String) : List Nat :=
  s.data.map Char.toNat

/-- Python `s <= t` on strings: lexicographic comparison of code points. -/
def pyStrLe (s t : String) : Bool :=
  !(natSeqLt (codePoints t) (codePoints s))

/-- Value of a decimal digit run (most significant first). -/
def digitsToNat (cs : List Char) : Nat :=
  cs.foldl (fun n c => n * 10 + (c.toNat - 48)) 0

/-- Split a character list at the first dot. -/
def splitDot : List Char → List Char × List Char
  | [] => ([], [])
  | c :: cs =>
    if c = '.' then ([], cs)
    else
      let p := splitDot cs
      (c :: p.1, p.2)

/-- Exact value of Python `float(ts)` on a Slack `ts` string
`"<digits>.<digits>"`: seconds since the epoch as a rational. -/
def parseTs (s : String) : ℚ :=
  let p := splitDot s.data
  (digitsToNat p.1 : ℚ) + (digitsToNat p.2 : ℚ) / (10 : ℚ) ^ p.2.length

/-- Decimal rendering of a nonnegative integer, zero-padded to width 2. -/
def pad2 (n : Int) : String :=
  let s := toString n.toNat
  if s.length < 2 then "0" ++ s else s

/-- Decimal rendering of a nonnegative integer, zero-padded to width 4. -/
def pad4 (n : Int) : String :=
  let s := toString n.toNat
  String.mk (List.replicate (4 - s.length) '0') ++ s

/-- Civil date and time-of-day fields of an epoch timestamp in KST
(`datetime.fromtimestamp(ts, tz=KST)`, UTC+9). -/
def kstCivil (q : ℚ) : Date × Int × Int × Int :=
  let secs := ⌊q⌋ + 9 * 3600
  let days := secs.fdiv 86400
  let sod := secs - 86400 * days
  (civilFromDays days, sod.fdiv 3600, (sod.emod 3600).fdiv 60, sod.emod 60)

/-- Python `strftime("%Y-%m-%d")` of a date. -/
def dateStrOfDate (d : Date) : String :=
  pad4 d.year ++ "-" ++ pad2 d.month ++ "-" ++ pad2 d.day

/-- Python `strftime("%m/%d %H:%M")` of a KST timestamp
(`format_slack_messages` time stamp). -/
def timeStrOfTs (q : ℚ) : String :=
  let c := kstCivil q
  pad2 c.1.month ++ "/" ++ pad2 c.1.day ++ " " ++ pad2 c.2.1 ++ ":" ++ pad2 c.2.2.1

/-- Python `strftime("%Y-%m-%d %H:%M:%S")` of a KST timestamp
(`enrich_message`'s `datetime` field). -/
def datetimeStrOfTs (q : ℚ) : String :=
  let c := kstCivil q
  dateStrOfDate c.1 ++ " " ++ pad2 c.2.1 ++ ":" ++ pad2 c.2.2.1 ++ ":" ++ pad2 c.2.2.2

/-- Python `strftime("%Y-%m-%d")` of a KST timestamp
(`enrich_message`'s `date` field). -/
def dateStrOfTs (q : ℚ) : String :=
  dateStrOfDate (kstCivil q).1

/-- Epoch timestamp of a KST wall-clock instant
(`datetime(y, m, d, h, mi, s, tzinfo=KST).timestamp()`). -/
def kstTimestamp (d : Date) (h mi s : Int) : ℚ :=
  ((daysFromCivil d * 86400 + h * 3600 + mi * 60 + s - 32400 : Int) : ℚ)

/-- Function `get_weekly_range` of `scripts/backup_slack.py`, date part:
previous Friday and this Thursday relative to `today`. -/
def get_weekly_range (today : Date) : Date × Date :=
  let days_since_friday := (today.weekday - 4).emod 7
  let this_friday := addDays today (-days_since_friday)
  let prev_friday := addDays this_friday (-7)
  let this_thursday := addDays this_friday (-1)
  (prev_friday, this_thursday)

/-- Slack message as fetched from the API. Field names follow the Slack
payload keys used by the scripts; `file_names` carries the `name` of each
entry of `files`, `has_attachments` the truthiness of `attachments`. -/
structure Msg where
  ts : String
  thread_ts : Option String := none
  text : String := ""
  user : Option String := none
  bot_id : Option String := none
  username : Option String := none
  reply_count : Nat := 0
  file_names : List String := []
  has_attachments : Bool := false
  reactions : List (String × Nat) := []
deriving DecidableEq, Repr

/-- Condition `"thread_ts" in msg and msg.get("thread_ts") != msg.get("ts")`
(`enrich_message` and `format_slack_messages`). -/
def isThreadReply (m : Msg) : Bool :=
  m.thread_ts.isSome && m.thread_ts != some m.ts

/-- Condition `bot_id and msg.get("bot_id") == bot_id` (the self-bot skip of
`backup_slack.main` and of `format_slack_messages`). -/
def isSelfBot (bot_id : Option String) (m : Msg) : Bool :=
  match bot_id with
  | some b => decide (b ≠ "") && m.bot_id == some b
  | none => false

/-- Enriched message dict built by `enrich_message` of
`scripts/backup_slack.py`. Optional dict keys are `Option` fields / flags
with their Python-absent defaults. -/
structure Enriched where
  ts : String
  datetime : String
  date : String
  text : String
  is_thread_reply : Bool
  parent_ts : Option String := none
  user_id : Option String := none
  user_name : Option String := none
  is_bot : Bool := false
  is_self_bot : Bool := false
  has_files : Bool := false
  file_names : List String := []
  has_attachments : Bool := false
  reactions : List (String × Nat) := []
deriving DecidableEq, Repr

/-- Function `enrich_message` of `scripts/backup_slack.py`; `resolve` is the
`resolve_user_name` oracle (Slack `users_info` plus the per-run cache). The
dict is built by sequential conditional updates in the source; each field
below is the final value of the corresponding key (absent key = default). -/
def enrich_message (msg : Msg) (bot_id : Option String)
    (resolve : String → String) : Enriched :=
  let ts_float := parseTs msg.ts
  let user_id := msg.user.getD ""
  { ts := msg.ts
    datetime := datetimeStrOfTs ts_float
    date := dateStrOfTs ts_float
    text := msg.text
    is_thread_reply := isThreadReply msg
    parent_ts :=
      match msg.thread_ts with
      | some p => if p ≠ "" ∧ p ≠ msg.ts then some p else none
      | none => none
    user_id := if user_id ≠ "" then some user_id else none
    user_name :=
      if user_id ≠ "" then some (resolve user_id)
      else
        match msg.bot_id with
        | some b => if b ≠ "" then some (msg.username.getD ("bot:" ++ b)) else none
        | none => none
    is_bot :=
      if user_id ≠ "" then false
      else
        match msg.bot_id with
        | some b => b ≠ ""
        | none => false
    is_self_bot := isSelfBot bot_id msg
    has_files := msg.file_names ≠ []
    file_names := msg.file_names
    has_attachments := msg.has_attachments
    reactions := msg.reactions }

/-- In-range test of `backup_slack.main`:
`start_ts <= float(ts) <= end_ts`. -/
def inRange (start_ts end_ts : ℚ) (ts : String) : Bool :=
  decide (start_ts ≤ parseTs ts) && decide (parseTs ts ≤ end_ts)

/-- Categorisation loop of `backup_slack.main` (step 4), over the items of
the `all_messages` dict in insertion order. Returns the unsorted
(`weekly_messages`, `late_thread_replies`) pair. -/
def categorize (bot_id : Option String) (resolve : String → String)
    (start_ts end_ts : ℚ) (prev_seen_ts : List String) :
    List (String × Msg) → List Enriched × List Enriched
  | [] => ([], [])
  | (ts, msg) :: rest =>
    let is_new : Bool := !(prev_seen_ts.contains ts)
    let enriched := enrich_message msg bot_id resolve
    let p := categorize bot_id resolve start_ts end_ts prev_seen_ts rest
    if enriched.is_self_bot then p
    else if inRange start_ts end_ts ts then (enriched :: p.1, p.2)
    else if is_new && enriched.is_thread_reply then (p.1, enriched :: p.2)
    else p

/-- Python `list.sort(key=lambda m: m["ts"])` (stable, string key). -/
def sortByTs (l : List Enriched) : List Enriched :=
  l.mergeSort (fun a b => pyStrLe a.ts b.ts)

/-- Categorisation plus the two `sort` calls of `backup_slack.main`
(steps 4 and the sort after it). -/
def reconcile (bot_id : Option String) (resolve : String → String)
    (start_ts end_ts : ℚ) (prev_seen_ts : List String)
    (all_messages : List (String × Msg)) : List Enriched × List Enriched :=
  let p := categorize bot_id resolve start_ts end_ts prev_seen_ts all_messages
  (sortByTs p.1, sortByTs p.2)

/-- Persisted backup object of `backup_slack.main` (step 5), data fields. -/
structure Backup where
  weekly_messages : List Enriched
  late_thread_replies : List Enriched
  seen_ts : List String
deriving Repr

/-- Step 5 of `backup_slack.main`:
`all_seen_ts = list(all_messages.keys())` and the backup object. -/
def build_backup (weekly late : List Enriched)
    (all_messages : List (String × Msg)) : Backup :=
  { weekly_messages := weekly
    late_thread_replies := late
    seen_ts := all_messages.map Prod.fst }

/-- Slack `conversations_history` page. -/
structure Page where
  messages : List Msg
  has_more : Bool
  next_cursor : String
deriving Repr

/-- Outcome of a run: normal value, `sys.exit(1)` / uncaught exception with a
message, or pagination fuel exhausted (the Python loop would still be
running). -/
inductive RunResult (α : Type) where
  | done (val : α)
  | aborted (err : String)
  | fuelOut
deriving Repr

/-- Pagination loop of `fetch_all_messages_with_threads` (step 1): repeated
`conversations_history` calls until `has_more` is false; a `SlackApiError`
is `sys.exit(1)`. -/
def fetchPages (history : Option String → Except String Page) :
    Nat → Option String → List Msg → RunResult (List Msg)
  | 0, _, _ => .fuelOut
  | fuel + 1, cursor, parents =>
    match history cursor with
    | .error e => .aborted e
    | .ok page =>
      let parents := parents ++ page.messages
      if page.has_more then
        fetchPages history fuel (some page.next_cursor) parents
      else .done parents

/-- Python dict assignment `d[k] = v` on an association list in insertion
order. -/
def dictInsert (d : List (String × Msg)) (k : String) (v : Msg) :
    List (String × Msg) :=
  if d.any (fun p => p.1 == k) then
    d.map (fun p => if p.1 == k then (p.1, v) else p)
  else d ++ [(k, v)]

/-- Thread-expansion loop of `fetch_all_messages_with_threads` (step 2):
every parent goes into `all_messages`; for a parent with `reply_count > 0`
its `conversations_replies` result is merged, and a `SlackApiError` there is
only logged. -/
def addThreads (replies : String → Except String (List Msg))
    (parents : List Msg) : List (String × Msg) :=
  parents.foldl
    (fun all msg =>
      let all := dictInsert all msg.ts msg
      if msg.reply_count > 0 then
        match replies msg.ts with
        | .ok thread_msgs =>
          thread_msgs.foldl (fun d r => dictInsert d r.ts r) all
        | .error _ => all
      else all)
    []

/-- Function `fetch_all_messages_with_threads` of `scripts/backup_slack.py`. -/
def fetch_all_messages_with_threads
    (history : Option String → Except String Page)
    (replies : String → Except String (List Msg)) (fuel : Nat) :
    RunResult (List (String × Msg)) :=
  match fetchPages history fuel none [] with
  | .done parents => .done (addThreads replies parents)
  | .aborted e => .aborted e
  | .fuelOut => .fuelOut

/-- Observable outcome of reading and JSON-decoding one backup file:
`read_text` raised an `OSError`, `json.loads` raised a `JSONDecodeError`, or
the file parsed into an object whose `seen_ts` key may be absent. -/
inductive BackupFile where
  | unreadable (err : String)
  | corrupt
  | parsed (seen_ts : Option (List String))
deriving Repr, DecidableEq

/-- Scan loop body of `load_previous_seen_ts`: files are tried in the given
order; a decode failure falls through to the next file, a read failure
propagates out of the function (only `JSONDecodeError` and `KeyError` are
caught), and the first parsed file returns `set(data.get("seen_ts", []))`. -/
def scanFiles : List BackupFile → Except String (List String)
  | [] => .ok []
  | .unreadable e :: _ => .error e
  | .corrupt :: rest => scanFiles rest
  | .parsed seen :: _ => .ok (seen.getD [])

/-- Function `load_previous_seen_ts` of `scripts/backup_slack.py`:
`sorted(BACKUP_DIR.glob("*.json"), reverse=True)` then the scan loop. Each
input pair is a file name and its read/decode outcome. -/
def load_previous_seen_ts (files : List (String × BackupFile)) :
    Except String (List String) :=
  scanFiles ((files.mergeSort (fun a b => pyStrLe b.1 a.1)).map Prod.snd)

/-- ASCII whitespace stripped by Python `str.strip()`. -/
def isSpace (c : Char) : Bool :=
  c = ' ' || c = '\t' || c = '\n' || c = '\r' || c = '\x0b' || c = '\x0c'

/-- Python `s.strip()`: remove leading and trailing whitespace. -/
def pyStrip (s : String) : String :=
  String.mk (((s.data.dropWhile isSpace).reverse.dropWhile isSpace).reverse)

/-- Line emitted (or skipped) by one iteration of the loop of
`format_slack_messages` in `scripts/generate_report.py`. -/
def lineOf (bot_id : Option String) (msg : Msg) : Option String :=
  if isSelfBot bot_id msg then none
  else
    let time_str := timeStrOfTs (parseTs msg.ts)
    let text := pyStrip msg.text
    if text = "" then none
    else
      let replyMark := if isThreadReply msg then "  [reply] " else ""
      some ("[" ++ time_str ++ "] " ++ replyMark ++ text)

/-- Accumulation loop of `format_slack_messages` (`lines = []; for msg in
messages: ... lines.append(...)`). -/
def format_lines (bot_id : Option String) (messages : List Msg) : List String :=
  messages.foldl
    (fun lines msg =>
      match lineOf bot_id msg with
      | some line => lines ++ [line]
      | none => lines)
    []

/-- Function `format_slack_messages` of `scripts/generate_report.py`
(the module-global `BOT_ID` is passed explicitly). -/
def format_slack_messages (bot_id : Option String) (messages : List Msg) :
    String :=
  String.intercalate "\n" (format_lines bot_id messages)

/-- Saved artifact of one run of `backup_slack.main`: target file name and
backup object. -/
structure SaveAction where
  filename : String
  backup : Backup
deriving Repr

/-- Function `main` of `scripts/backup_slack.py`: holiday and business-day
gate, weekly range, fetch, load of the previous seen-set, categorisation,
sort, and the single backup write. `done none` is a gated (skipped) run. -/
def backup_main (today : Date)
    (history : Option String → Except String Page)
    (replies : String → Except String (List Msg))
    (bot_id : Option String) (resolve : String → String)
    (prevFiles : List (String × BackupFile)) (fuel : Nat) :
    RunResult (Option SaveAction) :=
  if (is_korean_holiday today).1 then .done none
  else if is_business_day today = false then .done none
  else
    let r := get_weekly_range today
    let start_ts := kstTimestamp r.1 0 0 0
    let end_ts := kstTimestamp r.2 23 59 59
    match fetch_all_messages_with_threads history replies fuel with
    | .aborted e => .aborted e
    | .fuelOut => .fuelOut
    | .done all_messages =>
      match load_previous_seen_ts prevFiles with
      | .error e => .aborted e
      | .ok prev_seen_ts =>
        let p := reconcile bot_id resolve start_ts end_ts prev_seen_ts
          all_messages
        .done (some
          { filename := dateStrOfDate r.1 ++ ".json"
            backup := build_backup p.1 p.2 all_messages })

def digitsOnly (cs : List Char) : Bool :=
  cs.all (fun c => 48 ≤ c.toNat && c.toNat ≤ 57)

/-- Shape of a well-formed Slack `ts` id: run of integer digits, a dot, run
of fraction digits, with the given run lengths. -/
def tsShaped (s : String) (ilen flen : Nat) : Prop :=
  ∃ i f, s.data = i ++ '.' :: f ∧ digitsOnly i = true ∧ digitsOnly f = true
    ∧ i.length = ilen ∧ f.length = flen

/-- Thread-replies oracle with every failing call replaced by an empty
result (the children of a failed thread are simply absent). -/
def repliesIgnoringErrors (replies : String → Except String (List Msg))
    (q : String) : Except String (List Msg) :=
  match replies q with
  | .ok l => .ok l
  | .error _ => .ok []

/-- Parent message with a thread, used by concrete instantiations. -/
def threadedParent : Msg := { ts := "100.0", reply_count := 2 }

/-- Single final history page containing `threadedParent`. -/
def onePage : Page := { messages := [threadedParent], has_more := false, next_cursor := "" }

/-- Thread oracle whose every call raises. -/
def failingReplies : String → Except String (List Msg) :=
  fun _ => Except.error "thread_not_found"

/-- Message authored by the system's own bot, with an in-window timestamp. -/
def selfBotMsg : Msg := { ts := "250.0", text := "weekly report", bot_id := some "B07" }

/-- Non-bot message with an in-window timestamp. -/
def plainMsg : Msg := { ts := "250.0", text := "hello" }

/-- History oracle returning one final empty page. -/
def quietHistory : Option String → Except String Page :=
  fun _ => Except.ok { messages := [], has_more := false, next_cursor := "" }

/-- Save produced by the demo run of `backup_main` on Tuesday 2026-10-13
with an empty channel and no previous artifacts. -/
def demoAct : SaveAction :=
  { filename := dateStrOfDate (get_weekly_range ⟨2026, 10, 13⟩).1 ++ ".json"
    backup := build_backup
      (reconcile none (fun s => s)
        (kstTimestamp (get_weekly_range ⟨2026, 10, 13⟩).1 0 0 0)
        (kstTimestamp (get_weekly_range ⟨2026, 10, 13⟩).2 23 59 59) [] []).1
      (reconcile none (fun s => s)
        (kstTimestamp (get_weekly_range ⟨2026, 10, 13⟩).1 0 0 0)
        (kstTimestamp (get_weekly_range ⟨2026, 10, 13⟩).2 23 59 59) [] []).2
      [] }

theorem natSeqLt_asymm (a b : List Nat) (h : natSeqLt a b = true) :
    natSeqLt b a = false := by
  induction a generalizing b with
  | nil =>
    cases b with
    | nil => simp [natSeqLt] at h
    | cons y ys => simp [natSeqLt]
  | cons x xs ih =>
    cases b with
    | nil => simp [natSeqLt] at h
    | cons y ys =>
      rcases Nat.lt_trichotomy x y with hlt | heq | hgt
      · simp [natSeqLt, hlt, Nat.lt_asymm hlt]
      · subst heq
        simp only [natSeqLt, lt_irrefl, if_false] at h ⊢
        exact ih ys h
      · simp [natSeqLt, hgt, Nat.lt_asymm hgt] at h

theorem natSeqLt_connex (a b : List Nat) (h1 : natSeqLt a b = false)
    (h2 : natSeqLt b a = false) : a = b := by
  induction a generalizing b with
  | nil =>
    cases b with
    | nil => rfl
    | cons y ys => simp [natSeqLt] at h1
  | cons x xs ih =>
    cases b with
    | nil => simp [natSeqLt] at h2
    | cons y ys =>
      rcases Nat.lt_trichotomy x y with hlt | heq | hgt
      · simp [natSeqLt, hlt] at h1
      · subst heq
        simp only [natSeqLt, lt_irrefl, if_false] at h1 h2
        rw [ih ys h1 h2]
      · simp [natSeqLt, hgt] at h2

theorem natSeqLt_trans (a b c : List Nat) (h1 : natSeqLt a b = true)
    (h2 : natSeqLt b c = true) : natSeqLt a c = true := by
  induction a generalizing b c with
  | nil =>
    cases c with
    | nil =>
      cases b with
      | nil => simp [natSeqLt] at h1 ⊢
      | cons y ys => simp [natSeqLt] at h2
    | cons z zs => simp [natSeqLt]
  | cons x xs ih =>
    cases b with
    | nil => simp [natSeqLt] at h1
    | cons y ys =>
      cases c with
      | nil => simp [natSeqLt] at h2
      | cons z zs =>
        rcases Nat.lt_trichotomy x y with hxy | hxy | hxy <;>
          rcases Nat.lt_trichotomy y z with hyz | hyz | hyz
        · simp [natSeqLt, Nat.lt_trans hxy hyz]
        · subst hyz; simp [natSeqLt, hxy]
        · simp [natSeqLt, hyz, Nat.lt_asymm hyz] at h2
        · subst hxy; simp [natSeqLt, hyz]
        · subst hxy; subst hyz
          simp only [natSeqLt, lt_irrefl, if_false] at h1 h2 ⊢
          exact ih ys zs h1 h2
        · subst hxy; simp [natSeqLt, hyz, Nat.lt_asymm hyz] at h2
        · simp [natSeqLt, hxy, Nat.lt_asymm hxy] at h1
        · subst hyz; simp [natSeqLt, hxy, Nat.lt_asymm hxy] at h1
        · simp [natSeqLt, hxy, Nat.lt_asymm hxy] at h1

theorem pyStrLe_trans (s t u : String) (h1 : pyStrLe s t = true)
    (h2 : pyStrLe t u = true) : pyStrLe s u = true := by
  simp only [pyStrLe, Bool.not_eq_true', Bool.not_eq_false] at h1 h2 ⊢
  by_cases hus : natSeqLt (codePoints u) (codePoints s) = true
  · by_cases hst : natSeqLt (codePoints s) (codePoints t) = true
    · exact absurd (natSeqLt_trans _ _ _ hus hst) (by simp [h2])
    · have := natSeqLt_connex _ _ h1 (by simpa using hst)
      rw [this] at h2
      exact h2
  · simpa using hus

theorem pyStrLe_total (s t : String) : (pyStrLe s t || pyStrLe t s) = true := by
  simp only [pyStrLe, Bool.or_eq_true, Bool.not_eq_true']
  by_cases h : natSeqLt (codePoints t) (codePoints s) = true
  · right; exact natSeqLt_asymm _ _ h
  · left; simpa using h

theorem enrich_ts (msg : Msg) (bot_id : Option String) (resolve : String → String) :
    (enrich_message msg bot_id resolve).ts = msg.ts := rfl

theorem enrich_is_self_bot (msg : Msg) (bot_id : Option String)
    (resolve : String → String) :
    (enrich_message msg bot_id resolve).is_self_bot = isSelfBot bot_id msg := rfl

theorem enrich_is_thread_reply (msg : Msg) (bot_id : Option String)
    (resolve : String → String) :
    (enrich_message msg bot_id resolve).is_thread_reply = isThreadReply msg := rfl

theorem enrich_text (msg : Msg) (bot_id : Option String)
    (resolve : String → String) :
    (enrich_message msg bot_id resolve).text = msg.text := rfl

theorem mem_categorize_weekly (bot_id : Option String) (resolve : String → String)
    (start_ts end_ts : ℚ) (prev : List String) (entries : List (String × Msg))
    (x : Enriched) :
    x ∈ (categorize bot_id resolve start_ts end_ts prev entries).1 ↔
      ∃ p ∈ entries, x = enrich_message p.2 bot_id resolve ∧
        isSelfBot bot_id p.2 = false ∧ inRange start_ts end_ts p.1 = true := by
  induction entries with
  | nil => simp [categorize]
  | cons q rest ih =>
    obtain ⟨ts, msg⟩ := q
    by_cases hsb : isSelfBot bot_id msg = true
    · simp only [categorize, enrich_is_self_bot, hsb, if_true, ih]
      constructor
      · rintro ⟨p, hp, h⟩; exact ⟨p, List.mem_cons_of_mem _ hp, h⟩
      · rintro ⟨p, hp, h⟩
        rcases List.mem_cons.mp hp with h1 | h1
        · exfalso; rw [h1] at h; simp [hsb] at h
        · exact ⟨p, h1, h⟩
    · rw [Bool.not_eq_true] at hsb
      by_cases hir : inRange start_ts end_ts ts = true
      · simp only [categorize, enrich_is_self_bot, hsb, Bool.false_eq_true,
          if_false, hir, if_true]
        rw [List.mem_cons, ih]
        constructor
        · rintro (h | ⟨p, hp, h⟩)
          · exact ⟨(ts, msg), List.mem_cons_self _ _, h, hsb, hir⟩
          · exact ⟨p, List.mem_cons_of_mem _ hp, h⟩
        · rintro ⟨p, hp, h⟩
          rcases List.mem_cons.mp hp with h1 | h1
          · left; rw [h1] at h; exact h.1
          · right; exact ⟨p, h1, h⟩
      · simp only [categorize, enrich_is_self_bot, hsb, Bool.false_eq_true,
          if_false, hir]
        have hstep :
            (if (!prev.contains ts && (enrich_message msg bot_id resolve).is_thread_reply) = true then
              ((categorize bot_id resolve start_ts end_ts prev rest).1,
                enrich_message msg bot_id resolve ::
                  (categorize bot_id resolve start_ts end_ts prev rest).2)
            else categorize bot_id resolve start_ts end_ts prev rest).1 =
            (categorize bot_id resolve start_ts end_ts prev rest).1 := by
          split <;> rfl
        rw [hstep, ih]
        constructor
        · rintro ⟨p, hp, h⟩; exact ⟨p, List.mem_cons_of_mem _ hp, h⟩
        · rintro ⟨p, hp, h⟩
          rcases List.mem_cons.mp hp with h1 | h1
          · exfalso; rw [h1] at h; exact hir h.2.2
          · exact ⟨p, h1, h⟩

theorem mem_categorize_late (bot_id : Option String) (resolve : String → String)
    (start_ts end_ts : ℚ) (prev : List String) (entries : List (String × Msg))
    (x : Enriched) :
    x ∈ (categorize bot_id resolve start_ts end_ts prev entries).2 ↔
      ∃ p ∈ entries, x = enrich_message p.2 bot_id resolve ∧
        isSelfBot bot_id p.2 = false ∧ inRange start_ts end_ts p.1 = false ∧
        prev.contains p.1 = false ∧ isThreadReply p.2 = true := by
  induction entries with
  | nil => simp [categorize]
  | cons q rest ih =>
    obtain ⟨ts, msg⟩ := q
    by_cases hsb : isSelfBot bot_id msg = true
    · simp only [categorize, enrich_is_self_bot, hsb, if_true]
      rw [ih]
      constructor
      · rintro ⟨p, hp, h⟩; exact ⟨p, List.mem_cons_of_mem _ hp, h⟩
      · rintro ⟨p, hp, h⟩
        rcases List.mem_cons.mp hp with h1 | h1
        · exfalso; rw [h1] at h; simp [hsb] at h
        · exact ⟨p, h1, h⟩
    · rw [Bool.not_eq_true] at hsb
      by_cases hir : inRange start_ts end_ts ts = true
      · simp only [categorize, enrich_is_self_bot, hsb, Bool.false_eq_true,
          if_false, hir, if_true]
        show x ∈ (categorize bot_id resolve start_ts end_ts prev rest).2 ↔ _
        rw [ih]
        constructor
        · rintro ⟨p, hp, h⟩; exact ⟨p, List.mem_cons_of_mem _ hp, h⟩
        · rintro ⟨p, hp, h⟩
          rcases List.mem_cons.mp hp with h1 | h1
          · exfalso; rw [h1] at h; rw [h.2.2.1] at hir; exact Bool.false_ne_true hir
          · exact ⟨p, h1, h⟩
      · rw [Bool.not_eq_true] at hir
        by_cases hnew : (!prev.contains ts &&
            (enrich_message msg bot_id resolve).is_thread_reply) = true
        · simp only [categorize, enrich_is_self_bot, hsb, Bool.false_eq_true,
            if_false, hir, hnew, if_true]
          rw [List.mem_cons, ih]
          rw [enrich_is_thread_reply, Bool.and_eq_true, Bool.not_eq_true'] at hnew
          constructor
          · rintro (h | ⟨p, hp, h⟩)
            · exact ⟨(ts, msg), List.mem_cons_self _ _, h, hsb, hir, hnew.1, hnew.2⟩
            · exact ⟨p, List.mem_cons_of_mem _ hp, h⟩
          · rintro ⟨p, hp, h⟩
            rcases List.mem_cons.mp hp with h1 | h1
            · left; rw [h1] at h; exact h.1
            · right; exact ⟨p, h1, h⟩
        · simp only [categorize, enrich_is_self_bot, hsb, Bool.false_eq_true,
            if_false, hir, hnew]
          rw [ih]
          rw [enrich_is_thread_reply, Bool.and_eq_true, Bool.not_eq_true'] at hnew
          constructor
          · rintro ⟨p, hp, h⟩; exact ⟨p, List.mem_cons_of_mem _ hp, h⟩
          · rintro ⟨p, hp, h⟩
            rcases List.mem_cons.mp hp with h1 | h1
            · exfalso; rw [h1] at h
              exact hnew ⟨h.2.2.2.1, h.2.2.2.2⟩
            · exact ⟨p, h1, h⟩

theorem categorize_ids_subperm (bot_id : Option String) (resolve : String → String)
    (start_ts end_ts : ℚ) (prev : List String) (entries : List (String × Msg))
    (hk : ∀ p ∈ entries, p.1 = p.2.ts) :
    List.Subperm
      ((categorize bot_id resolve start_ts end_ts prev entries).1.map Enriched.ts ++
        (categorize bot_id resolve start_ts end_ts prev entries).2.map Enriched.ts)
      (entries.map Prod.fst) := by
  induction entries with
  | nil => simp [categorize]
  | cons q rest ih =>
    obtain ⟨ts, msg⟩ := q
    have hts : ts = msg.ts := hk (ts, msg) (List.mem_cons_self _ _)
    have hkr : ∀ p ∈ rest, p.1 = p.2.ts := fun p hp => hk p (List.mem_cons_of_mem _ hp)
    have ihr := ih hkr
    by_cases hsb : isSelfBot bot_id msg = true
    · simp only [categorize, enrich_is_self_bot, hsb, if_true, List.map_cons]
      exact ihr.cons_right ts
    · rw [Bool.not_eq_true] at hsb
      by_cases hir : inRange start_ts end_ts ts = true
      · simp only [categorize, enrich_is_self_bot, hsb, Bool.false_eq_true,
          if_false, hir, if_true, List.map_cons]
        show List.Subperm (((enrich_message msg bot_id resolve).ts ::
          (categorize bot_id resolve start_ts end_ts prev rest).1.map Enriched.ts) ++
          (categorize bot_id resolve start_ts end_ts prev rest).2.map Enriched.ts)
          (ts :: rest.map Prod.fst)
        rw [enrich_ts, ← hts, List.cons_append]
        exact (List.subperm_cons ts).mpr ihr
      · by_cases hnew : (!prev.contains ts &&
            (enrich_message msg bot_id resolve).is_thread_reply) = true
        · simp only [categorize, enrich_is_self_bot, hsb, Bool.false_eq_true,
            if_false, hir, hnew, if_true, List.map_cons]
          show List.Subperm
            ((categorize bot_id resolve start_ts end_ts prev rest).1.map Enriched.ts ++
              ((enrich_message msg bot_id resolve).ts ::
                (categorize bot_id resolve start_ts end_ts prev rest).2.map Enriched.ts))
            (ts :: rest.map Prod.fst)
          rw [enrich_ts, ← hts]
          exact (List.perm_middle.subperm_right).mpr ((List.subperm_cons ts).mpr ihr)
        · simp only [categorize, enrich_is_self_bot, hsb, Bool.false_eq_true,
            if_false, hir, hnew]
          exact ihr.cons_right ts

theorem format_lines_eq (bot_id : Option String) (messages : List Msg) :
    format_lines bot_id messages = messages.filterMap (lineOf bot_id) := by
  suffices h : ∀ (ms : List Msg) (acc : List String),
      ms.foldl (fun lines msg => match lineOf bot_id msg with
        | some line => lines ++ [line]
        | none => lines) acc = acc ++ ms.filterMap (lineOf bot_id) by
    simpa [format_lines] using h messages []
  intro ms
  induction ms with
  | nil => simp
  | cons m rest ih =>
    intro acc
    cases h : lineOf bot_id m <;> simp [List.filterMap_cons, h, ih]

theorem sortByTs_perm (l : List Enriched) : (sortByTs l).Perm l :=
  List.mergeSort_perm l _

theorem sortByTs_sorted (l : List Enriched) :
    List.Pairwise (fun a b => pyStrLe a.ts b.ts = true) (sortByTs l) :=
  List.sorted_mergeSort
    (fun a b c h1 h2 => pyStrLe_trans a.ts b.ts c.ts h1 h2)
    (fun a b => pyStrLe_total a.ts b.ts) l

theorem subperm_nodup {α : Type} {l₁ l₂ : List α} (h : List.Subperm l₁ l₂)
    (h2 : l₂.Nodup) : l₁.Nodup := by
  obtain ⟨l, hp, hs⟩ := h
  exact hp.nodup_iff.mp (h2.sublist hs)

theorem lookup_eq_none_iff {β : Type} (l : List (Date × β)) (d : Date) :
    l.lookup d = none ↔ d ∉ l.map Prod.fst := by
  induction l with
  | nil => simp
  | cons a rest ih =>
    by_cases h : d = a.1
    · subst h
      simp [List.lookup]
    · simp only [List.lookup, List.map_cons, List.mem_cons]
      rw [beq_eq_false_iff_ne.mpr h]  -- maybe needs (d == a.1) = false
      simp [ih, h]

/-- C8: for every date `d`, `is_business_day d` is `true` iff the weekday of
`d` is Monday..Friday (0..4) and `d` is not a key of the holiday table; and
`is_korean_holiday` returns `(true, label)` exactly for the table's label at
`d`, and `(false, "")` exactly when `d` is not in the table. -/
theorem c8_business_day_characterisation (d : Date) :
    (is_business_day d = true ↔
      (0 ≤ d.weekday ∧ d.weekday < 5) ∧ d ∉ KOREAN_HOLIDAYS.map Prod.fst)
    ∧ (∀ lbl, is_korean_holiday d = (true, lbl) ↔
        KOREAN_HOLIDAYS.lookup d = some lbl)
    ∧ (is_korean_holiday d = (false, "") ↔ d ∉ KOREAN_HOLIDAYS.map Prod.fst) := by
  have hnn : 0 ≤ d.weekday := Int.emod_nonneg _ (by norm_num)
  refine ⟨?_, ?_, ?_⟩
  · unfold is_business_day
    rw [← lookup_eq_none_iff]
    split_ifs with h1 h2
    · simp only [Bool.false_eq_true, false_iff]
      intro h; omega
    · simp only [Bool.false_eq_true, false_iff]
      intro h
      rw [h.2] at h2
      simp at h2
    · simp only [true_iff]
      refine ⟨⟨hnn, by omega⟩, ?_⟩
      cases hl : KOREAN_HOLIDAYS.lookup d with
      | none => rfl
      | some lbl => rw [hl] at h2; simp at h2
  · intro lbl
    unfold is_korean_holiday
    cases hl : KOREAN_HOLIDAYS.lookup d with
    | none => simp
    | some x => simp
  · unfold is_korean_holiday
    rw [← lookup_eq_none_iff]
    cases hl : KOREAN_HOLIDAYS.lookup d with
    | none => simp
    | some x => simp

/-- C8 witness: Scenario D. Saturday 2026-10-10 is not a business day; the
Christmas holiday Friday 2026-12-25 is not a business day and carries the
label "christmas"; ordinary Tuesday 2026-10-13 is a business day. -/
theorem c8_business_day_scenario :
    is_business_day ⟨2026, 10, 13⟩ = true
    ∧ is_business_day ⟨2026, 10, 10⟩ = false
    ∧ is_korean_holiday ⟨2026, 12, 25⟩ = (true, "christmas")
    ∧ is_business_day ⟨2026, 12, 25⟩ = false := by
  refine ⟨(c8_business_day_characterisation ⟨2026, 10, 13⟩).1.mpr (by decide),
    ?_, (c8_business_day_characterisation ⟨2026, 12, 25⟩).2.1 "christmas" |>.mpr
      (by decide), ?_⟩
  · decide
  · decide

/-- C9 counterexample: Christmas 2025 lies outside the table's only year
(2026); the business-calendar check does not signal this out-of-year query in
any way — it silently answers "not a holiday" and "business day" (the date is
a Thursday), in the very output format used for in-year dates. -/
theorem c9_out_of_year_counterexample :
    (⟨2025, 12, 25⟩ : Date).year ≠ 2026
    ∧ is_korean_holiday ⟨2025, 12, 25⟩ = (false, "")
    ∧ is_business_day ⟨2025, 12, 25⟩ = true
    ∧ (⟨2025, 12, 25⟩ : Date).weekday = 3 := by
  refine ⟨by decide, by decide, by decide, by decide⟩

/-- C9 amended: for every date outside the table's single valid year 2026
the check silently treats the date as a non-holiday: `is_korean_holiday`
returns the ordinary `(false, "")` and `is_business_day` is `true` exactly
when the weekday is Monday..Friday; no error or distinguished result is
produced. -/
theorem c9_out_of_year_silent (d : Date) (h : d.year ≠ 2026) :
    is_korean_holiday d = (false, "")
    ∧ (is_business_day d = true ↔ d.weekday < 5) := by
  have htab : ∀ p ∈ KOREAN_HOLIDAYS, (Prod.fst p).year = 2026 := by decide
  have hmem : d ∉ KOREAN_HOLIDAYS.map Prod.fst := by
    intro hd
    rcases List.mem_map.mp hd with ⟨p, hp, hpd⟩
    exact h (hpd ▸ htab p hp)
  have hnone : KOREAN_HOLIDAYS.lookup d = none :=
    (lookup_eq_none_iff _ _).mpr hmem
  constructor
  · unfold is_korean_holiday
    rw [hnone]
  · unfold is_business_day
    rw [hnone]
    simp only [Option.isSome_none, Bool.false_eq_true, if_false]
    have hnn : 0 ≤ d.weekday := Int.emod_nonneg _ (by norm_num)
    split_ifs with h1
    · simp only [Bool.false_eq_true, false_iff]; omega
    · simp only [true_iff]; omega

/-- C9 witness: the amended statement applied at the concrete out-of-year
date 2025-12-25. -/
theorem c9_out_of_year_witness :
    is_korean_holiday ⟨2025, 12, 25⟩ = (false, "")
    ∧ is_business_day ⟨2025, 12, 25⟩ = true :=
  ⟨(c9_out_of_year_silent ⟨2025, 12, 25⟩ (by decide)).1,
   (c9_out_of_year_silent ⟨2025, 12, 25⟩ (by decide)).2.mpr (by decide)⟩

theorem digits_foldl (cs : List Char) : ∀ n : Nat,
    cs.foldl (fun n c => n * 10 + (c.toNat - 48)) n =
      n * 10 ^ cs.length + digitsToNat cs := by
  induction cs with
  | nil => intro n; simp [digitsToNat]
  | cons c cs ih =>
    intro n
    have h1 : digitsToNat (c :: cs) = (c.toNat - 48) * 10 ^ cs.length + digitsToNat cs := by
      show (c :: cs).foldl (fun n c => n * 10 + (c.toNat - 48)) 0 = _
      rw [List.foldl_cons, ih (0 * 10 + (c.toNat - 48))]
      ring
    rw [List.foldl_cons, ih (n * 10 + (c.toNat - 48)), h1, List.length_cons]
    ring

theorem digitsToNat_cons (c : Char) (cs : List Char) :
    digitsToNat (c :: cs) = (c.toNat - 48) * 10 ^ cs.length + digitsToNat cs := by
  show (c :: cs).foldl (fun n c => n * 10 + (c.toNat - 48)) 0 = _
  rw [List.foldl_cons, digits_foldl cs (0 * 10 + (c.toNat - 48))]
  ring

theorem digitsToNat_lt (cs : List Char) (h : digitsOnly cs = true) :
    digitsToNat cs < 10 ^ cs.length := by
  induction cs with
  | nil => simp [digitsToNat]
  | cons c cs ih =>
    rw [digitsOnly, List.all_cons, Bool.and_eq_true] at h
    have hc : c.toNat - 48 ≤ 9 := by
      have := h.1
      rw [Bool.and_eq_true, decide_eq_true_eq, decide_eq_true_eq] at this
      omega
    have hcs := ih h.2
    rw [digitsToNat_cons, List.length_cons, pow_succ]
    calc (c.toNat - 48) * 10 ^ cs.length + digitsToNat cs
        < (c.toNat - 48) * 10 ^ cs.length + 10 ^ cs.length := by omega
      _ = (c.toNat - 48 + 1) * 10 ^ cs.length := by ring
      _ ≤ 10 * 10 ^ cs.length := Nat.mul_le_mul_right _ (by omega)
      _ = 10 ^ cs.length * 10 := by ring

theorem digitsToNat_head_lt {c d : Char} {cs ds : List Char}
    (hc : 48 ≤ c.toNat) (hcd : c.toNat < d.toNat)
    (hcs : digitsOnly cs = true) (hlen : cs.length = ds.length) :
    digitsToNat (c :: cs) < digitsToNat (d :: ds) := by
  rw [digitsToNat_cons, digitsToNat_cons, ← hlen]
  have h1 := digitsToNat_lt cs hcs
  calc (c.toNat - 48) * 10 ^ cs.length + digitsToNat cs
      < (c.toNat - 48) * 10 ^ cs.length + 10 ^ cs.length := by omega
    _ = (c.toNat - 48 + 1) * 10 ^ cs.length := by ring
    _ ≤ (d.toNat - 48) * 10 ^ cs.length := Nat.mul_le_mul_right _ (by omega)
    _ ≤ (d.toNat - 48) * 10 ^ cs.length + digitsToNat ds := Nat.le_add_right _ _

theorem digitsToNat_map_congr {a b : List Char}
    (h : a.map Char.toNat = b.map Char.toNat) : digitsToNat a = digitsToNat b := by
  unfold digitsToNat
  rw [← List.foldl_map Char.toNat (fun n k => n * 10 + (k - 48)) a 0,
    ← List.foldl_map Char.toNat (fun n k => n * 10 + (k - 48)) b 0, h]

theorem natSeqLt_digits_append (i1 i2 : List Char) (r1 r2 : List Nat)
    (h1 : digitsOnly i1 = true) (h2 : digitsOnly i2 = true)
    (hlen : i1.length = i2.length) :
    natSeqLt (i1.map Char.toNat ++ r1) (i2.map Char.toNat ++ r2) = true ↔
      (digitsToNat i1 < digitsToNat i2 ∨
        (i1.map Char.toNat = i2.map Char.toNat ∧ natSeqLt r1 r2 = true)) := by
  induction i1 generalizing i2 with
  | nil =>
    cases i2 with
    | nil => simp [digitsToNat]
    | cons d ds => simp at hlen
  | cons c cs ih =>
    cases i2 with
    | nil => simp at hlen
    | cons d ds =>
      rw [digitsOnly, List.all_cons, Bool.and_eq_true] at h1 h2
      have hdc : 48 ≤ c.toNat ∧ c.toNat ≤ 57 := by
        have := h1.1
        rw [Bool.and_eq_true, decide_eq_true_eq, decide_eq_true_eq] at this
        exact this
      have hdd : 48 ≤ d.toNat ∧ d.toNat ≤ 57 := by
        have := h2.1
        rw [Bool.and_eq_true, decide_eq_true_eq, decide_eq_true_eq] at this
        exact this
      rw [List.length_cons, List.length_cons] at hlen
      have hlen2 : cs.length = ds.length := by omega
      rcases Nat.lt_trichotomy c.toNat d.toNat with hcd | hcd | hcd
      · simp only [List.map_cons, List.cons_append, natSeqLt, hcd, if_true,
          true_iff]
        left
        exact digitsToNat_head_lt hdc.1 hcd h1.2 hlen2
      · simp only [List.map_cons, List.cons_append, natSeqLt, hcd, lt_irrefl,
          if_false]
        rw [show ((List.map Char.toNat cs).append r1) = (List.map Char.toNat cs ++ r1) from rfl,
          show ((List.map Char.toNat ds).append r2) = (List.map Char.toNat ds ++ r2) from rfl,
          ih ds h1.2 h2.2 hlen2]
        constructor
        · rintro (h | ⟨hmap, hr⟩)
          · left
            rw [digitsToNat_cons, digitsToNat_cons, hcd, ← hlen2]
            omega
          · right
            exact ⟨by rw [hmap], hr⟩
        · rintro (h | ⟨hmap, hr⟩)
          · left
            rw [digitsToNat_cons, digitsToNat_cons, hcd, ← hlen2] at h
            have hb1 := digitsToNat_lt cs h1.2
            have hb2 := digitsToNat_lt ds h2.2
            rw [← hlen2] at hb2
            omega
          · right
            rw [List.cons.injEq] at hmap
            exact ⟨hmap.2, hr⟩
      · simp only [List.map_cons, List.cons_append, natSeqLt, hcd,
          Nat.lt_asymm hcd, if_true, if_false]
        constructor
        · intro h; exact absurd h (by simp)
        · rintro (h | ⟨hmap, hr⟩)
          · exact absurd (digitsToNat_head_lt hdd.1 hcd h2.2 hlen2.symm)
              (by omega)
          · rw [List.cons.injEq] at hmap
            exact absurd hmap.1 (by omega)

theorem splitDot_append (i f : List Char) (h : digitsOnly i = true) :
    splitDot (i ++ '.' :: f) = (i, f) := by
  induction i with
  | nil => simp [splitDot]
  | cons c cs ih =>
    rw [digitsOnly, List.all_cons, Bool.and_eq_true] at h
    have hc : c ≠ '.' := by
      intro hc
      subst hc
      have := h.1
      rw [Bool.and_eq_true, decide_eq_true_eq, decide_eq_true_eq] at this
      have h46 : ('.' : Char).toNat = 46 := rfl
      omega
    simp [splitDot, hc, ih h.2]

theorem parseTs_shaped (s : String) (i f : List Char)
    (hdata : s.data = i ++ '.' :: f) (hi : digitsOnly i = true) :
    parseTs s = (digitsToNat i : ℚ) + (digitsToNat f : ℚ) / (10 : ℚ) ^ f.length := by
  unfold parseTs
  rw [hdata, splitDot_append i f hi]

theorem codePoints_shaped (s : String) (i f : List Char)
    (hdata : s.data = i ++ '.' :: f) :
    codePoints s = i.map Char.toNat ++ 46 :: f.map Char.toNat := by
  unfold codePoints
  rw [hdata, List.map_append, List.map_cons,
    show ('.' : Char).toNat = 46 from rfl]

theorem natSeqLt_parseTs_forward (s t : String) (ilen flen : Nat)
    (hs : tsShaped s ilen flen) (ht : tsShaped t ilen flen)
    (h : natSeqLt (codePoints t) (codePoints s) = true) :
    parseTs t < parseTs s := by
  obtain ⟨i1, f1, hd1, hi1, hf1, hil1, hfl1⟩ := hs
  obtain ⟨i2, f2, hd2, hi2, hf2, hil2, hfl2⟩ := ht
  rw [codePoints_shaped s i1 f1 hd1, codePoints_shaped t i2 f2 hd2] at h
  rw [parseTs_shaped s i1 f1 hd1 hi1, parseTs_shaped t i2 f2 hd2 hi2]
  rw [natSeqLt_digits_append i2 i1 _ _ hi2 hi1 (by omega)] at h
  rw [hfl1, hfl2]
  rcases h with h | ⟨hmap, h⟩
  · have hb2 : digitsToNat f2 < 10 ^ flen := by
      rw [← hfl2]; exact digitsToNat_lt f2 hf2
    have hq2 : (digitsToNat f2 : ℚ) / (10 : ℚ) ^ flen < 1 := by
      rw [div_lt_one (by positivity)]
      exact_mod_cast hb2
    have hq1 : (0 : ℚ) ≤ (digitsToNat f1 : ℚ) / (10 : ℚ) ^ flen := by positivity
    have hle : (digitsToNat i2 : ℚ) + 1 ≤ (digitsToNat i1 : ℚ) := by
      exact_mod_cast h
    linarith
  · have hieq : digitsToNat i2 = digitsToNat i1 := digitsToNat_map_congr hmap
    have hcons : natSeqLt (46 :: f2.map Char.toNat) (46 :: f1.map Char.toNat) =
        natSeqLt (f2.map Char.toNat) (f1.map Char.toNat) := by
      simp [natSeqLt]
    rw [hcons] at h
    rw [← List.append_nil (f2.map Char.toNat), ← List.append_nil (f1.map Char.toNat)] at h
    rw [natSeqLt_digits_append f2 f1 [] [] hf2 hf1 (by omega)] at h
    rcases h with h | ⟨_, h⟩
    · have := (div_lt_div_iff_of_pos_right (c := (10 : ℚ) ^ flen)
        (by positivity)).mpr (show (digitsToNat f2 : ℚ) < digitsToNat f1 by
          exact_mod_cast h)
      rw [hieq]
      linarith
    · simp [natSeqLt] at h

theorem natSeqLt_parseTs (s t : String) (ilen flen : Nat)
    (hs : tsShaped s ilen flen) (ht : tsShaped t ilen flen) :
    natSeqLt (codePoints t) (codePoints s) = true ↔ parseTs t < parseTs s := by
  constructor
  · exact natSeqLt_parseTs_forward s t ilen flen hs ht
  · intro h
    cases hb : natSeqLt (codePoints t) (codePoints s) with
    | true => rfl
    | false =>
      exfalso
      cases hb2 : natSeqLt (codePoints s) (codePoints t) with
      | true =>
        exact absurd (natSeqLt_parseTs_forward t s ilen flen ht hs hb2)
          (by linarith)
      | false =>
        have heq := natSeqLt_connex _ _ hb hb2
        obtain ⟨i1, f1, hd1, hi1, hf1, hil1, hfl1⟩ := hs
        obtain ⟨i2, f2, hd2, hi2, hf2, hil2, hfl2⟩ := ht
        rw [codePoints_shaped s i1 f1 hd1, codePoints_shaped t i2 f2 hd2] at heq
        have hlen : (i2.map Char.toNat).length = (i1.map Char.toNat).length := by
          rw [List.length_map, List.length_map]; omega
        obtain ⟨hmapi, htail⟩ := List.append_inj heq hlen
        rw [List.cons.injEq] at htail
        have hieq : digitsToNat i2 = digitsToNat i1 := digitsToNat_map_congr hmapi
        have hfeq : digitsToNat f2 = digitsToNat f1 := digitsToNat_map_congr htail.2
        rw [parseTs_shaped s i1 f1 hd1 hi1, parseTs_shaped t i2 f2 hd2 hi2,
          hieq, hfeq, hfl1, hfl2] at h
        exact lt_irrefl _ h

theorem pyStrLe_iff_parseTs (s t : String) (ilen flen : Nat)
    (hs : tsShaped s ilen flen) (ht : tsShaped t ilen flen) :
    pyStrLe s t = true ↔ parseTs s ≤ parseTs t := by
  unfold pyStrLe
  rw [Bool.not_eq_true']
  constructor
  · intro h
    by_contra hlt
    push_neg at hlt
    rw [← natSeqLt_parseTs s t ilen flen hs ht] at hlt
    rw [h] at hlt
    exact Bool.false_ne_true hlt
  · intro h
    cases hb : natSeqLt (codePoints t) (codePoints s) with
    | false => rfl
    | true =>
      exact absurd ((natSeqLt_parseTs s t ilen flen hs ht).mp hb)
        (not_lt.mpr h)

/-- C3: both reconciler output lists are sorted ascending by `id` (the
string sort key used by `list.sort`); `format_slack_messages` emits its
lines exactly in input order (its line list is the order-preserving
`filterMap` of the per-record line function); and on well-formed Slack ids
of a common shape the ascending id order coincides with ascending order of
the parsed timestamps, so it is the chronological order. -/
theorem c3_ordering (bot_id : Option String) (resolve : String → String)
    (start_ts end_ts : ℚ) (prev : List String) (entries : List (String × Msg))
    (messages : List Msg) :
    List.Pairwise (fun a b : Enriched => pyStrLe a.ts b.ts = true)
      (reconcile bot_id resolve start_ts end_ts prev entries).1
    ∧ List.Pairwise (fun a b : Enriched => pyStrLe a.ts b.ts = true)
      (reconcile bot_id resolve start_ts end_ts prev entries).2
    ∧ format_lines bot_id messages = messages.filterMap (lineOf bot_id)
    ∧ (∀ s t : String, ∀ ilen flen : Nat, tsShaped s ilen flen →
        tsShaped t ilen flen → (pyStrLe s t = true ↔ parseTs s ≤ parseTs t)) :=
  ⟨sortByTs_sorted _, sortByTs_sorted _, format_lines_eq _ _,
    fun s t ilen flen hs ht => pyStrLe_iff_parseTs s t ilen flen hs ht⟩

/-- C3 witness: on the concrete ids "1700000100.000100" and
"1700000200.000050" the id order agrees with the parsed-timestamp order. -/
theorem c3_ordering_witness :
    pyStrLe "1700000100.000100" "1700000200.000050" = true ↔
      parseTs "1700000100.000100" ≤ parseTs "1700000200.000050" :=
  (c3_ordering none (fun s => s) 0 1 [] [] []).2.2.2
    "1700000100.000100" "1700000200.000050" 10 6
    ⟨['1','7','0','0','0','0','0','1','0','0'], ['0','0','0','1','0','0'],
      rfl, by decide, by decide, rfl, rfl⟩
    ⟨['1','7','0','0','0','0','0','2','0','0'], ['0','0','0','0','5','0'],
      rfl, by decide, by decide, rfl, rfl⟩

/-- C7: the lines of `format_slack_messages` are exactly the order-preserving
`filterMap` of the per-record line function; a record whose body is empty
after stripping whitespace never yields a line; a record that does yield a
line yields exactly one, of the form time stamp, optional reply marker, then
the stripped body. -/
theorem c7_render_skips_empty (bot_id : Option String) (messages : List Msg) :
    format_lines bot_id messages = messages.filterMap (lineOf bot_id)
    ∧ (∀ m : Msg, pyStrip m.text = "" → lineOf bot_id m = none)
    ∧ (∀ m : Msg, ∀ s, lineOf bot_id m = some s →
        pyStrip m.text ≠ "" ∧
        s = "[" ++ timeStrOfTs (parseTs m.ts) ++ "] " ++
          (if isThreadReply m then "  [reply] " else "") ++ pyStrip m.text) := by
  refine ⟨format_lines_eq bot_id messages, ?_, ?_⟩
  · intro m hm
    simp only [lineOf]
    split_ifs <;> rfl
  · intro m s h
    simp only [lineOf] at h
    split_ifs at h with h1 h2 h3
    · refine ⟨h2, ?_⟩
      rw [if_pos h3]
      exact (Option.some.inj h).symm
    · refine ⟨h2, ?_⟩
      rw [if_neg h3]
      exact (Option.some.inj h).symm

/-- C7 witness: a record whose body is whitespace only is skipped, and the
line list of a singleton input is its `filterMap`. -/
theorem c7_render_skips_empty_witness :
    lineOf none { ts := "1700000000.000100", text := "   " } = none
    ∧ format_lines none [{ ts := "1700000000.000100", text := "hello" }] =
        List.filterMap (lineOf none) [{ ts := "1700000000.000100", text := "hello" }] :=
  ⟨(c7_render_skips_empty none []).2.1 _ (by decide),
   (c7_render_skips_empty none [{ ts := "1700000000.000100", text := "hello" }]).1⟩

theorem addThreads_error_skip (replies : String → Except String (List Msg))
    (parents : List Msg) :
    addThreads replies parents = addThreads (repliesIgnoringErrors replies) parents := by
  unfold addThreads
  suffices h : ∀ (ps : List Msg) (acc : List (String × Msg)),
      ps.foldl
        (fun all msg =>
          let all := dictInsert all msg.ts msg
          if msg.reply_count > 0 then
            match replies msg.ts with
            | .ok thread_msgs =>
              thread_msgs.foldl (fun d r => dictInsert d r.ts r) all
            | .error _ => all
          else all)
        acc =
      ps.foldl
        (fun all msg =>
          let all := dictInsert all msg.ts msg
          if msg.reply_count > 0 then
            match repliesIgnoringErrors replies msg.ts with
            | .ok thread_msgs =>
              thread_msgs.foldl (fun d r => dictInsert d r.ts r) all
            | .error _ => all
          else all)
        acc from h parents []
  intro ps
  induction ps with
  | nil => intro acc; rfl
  | cons m rest ih =>
    intro acc
    rw [List.foldl_cons, List.foldl_cons, ih]
    congr 1
    by_cases hc : m.reply_count > 0
    · cases hr : replies m.ts with
      | ok l => simp [hc, repliesIgnoringErrors, hr]
      | error e => simp [hc, repliesIgnoringErrors, hr]
    · simp [hc]

/-- C5: a failure of the primary paginated history fetch aborts the whole
run with the error (no partial result is produced); when pagination
succeeds the run completes with the thread-expanded result, and a failing
per-thread replies fetch behaves exactly as if that thread's children were
absent (the oracle that turns every thread failure into an empty reply list
yields the same result), never aborting the run. -/
theorem c5_fatal_vs_degraded
    (history : Option String → Except String Page)
    (replies : String → Except String (List Msg)) (fuel : Nat) :
    (∀ e, fetchPages history fuel none [] = .aborted e →
      fetch_all_messages_with_threads history replies fuel = .aborted e)
    ∧ (∀ e, history none = Except.error e →
      fetch_all_messages_with_threads history replies (fuel + 1) = .aborted e)
    ∧ (∀ parents, fetchPages history fuel none [] = .done parents →
      fetch_all_messages_with_threads history replies fuel =
        .done (addThreads replies parents))
    ∧ (∀ parents, addThreads replies parents =
        addThreads (repliesIgnoringErrors replies) parents) := by
  refine ⟨?_, ?_, ?_, fun parents => addThreads_error_skip replies parents⟩
  · intro e h
    unfold fetch_all_messages_with_threads
    rw [h]
  · intro e h
    unfold fetch_all_messages_with_threads
    unfold fetchPages
    rw [h]
  · intro parents h
    unfold fetch_all_messages_with_threads
    rw [h]

/-- C5 witness: with an always-failing history oracle the run aborts with
that error; with a one-page history and an always-failing thread oracle the
run completes and equals the run with the failing threads replaced by empty
threads. -/
theorem c5_fatal_vs_degraded_witness :
    fetch_all_messages_with_threads (fun _ => Except.error "ratelimited")
      failingReplies 5 = .aborted "ratelimited"
    ∧ fetch_all_messages_with_threads (fun _ => Except.ok onePage)
        failingReplies 1 = .done (addThreads failingReplies [threadedParent])
    ∧ addThreads failingReplies [threadedParent] =
        addThreads (repliesIgnoringErrors failingReplies) [threadedParent] :=
  ⟨(c5_fatal_vs_degraded (fun _ => Except.error "ratelimited")
      failingReplies 5).1 "ratelimited" rfl,
   (c5_fatal_vs_degraded (fun _ => Except.ok onePage) failingReplies 1).2.2.1
      [threadedParent] rfl,
   (c5_fatal_vs_degraded (fun _ => Except.error "ratelimited")
      failingReplies 1).2.2.2 [threadedParent]⟩

theorem scanFiles_skip_corrupt (pre rest : List BackupFile)
    (h : ∀ x ∈ pre, x = BackupFile.corrupt) :
    scanFiles (pre ++ rest) = scanFiles rest := by
  induction pre with
  | nil => rfl
  | cons a as ih =>
    have ha : a = BackupFile.corrupt := h a (List.mem_cons_self _ _)
    subst ha
    rw [List.cons_append]
    show scanFiles (as ++ rest) = scanFiles rest
    exact ih (fun x hx => h x (List.mem_cons_of_mem _ hx))

theorem scanFiles_all_corrupt (l : List BackupFile)
    (h : ∀ x ∈ l, x = BackupFile.corrupt) : scanFiles l = .ok [] := by
  have := scanFiles_skip_corrupt l [] h
  rw [List.append_nil] at this
  exact this

/-- C6 counterexample: a single persisted artifact whose read raises an
I/O error is not skipped — `load_previous_seen_ts` propagates the exception
(only `JSONDecodeError` and `KeyError` are caught), so the failure is
fatal to the run rather than falling through to an empty seen-set. -/
theorem c6_unreadable_is_fatal :
    load_previous_seen_ts
      [("2026-01-02.json", BackupFile.unreadable "Permission denied")] =
      .error "Permission denied" := by
  simp [load_previous_seen_ts, scanFiles]

/-- C6 amended: the scan visits the persisted artifacts in descending
file-name order (newest first); with any run of undecodable (corrupt)
artifacts before the first decisive one, a parsed artifact returns its
`seen_ts` id set (default empty) and an unreadable artifact aborts with its
I/O error; and when every artifact is corrupt the result is the empty set
(cold start). -/
theorem c6_load_previous_scan (files : List (String × BackupFile)) :
    List.Pairwise (fun a b : String × BackupFile => pyStrLe b.1 a.1 = true)
      (files.mergeSort (fun a b => pyStrLe b.1 a.1))
    ∧ (∀ pre q post,
        files.mergeSort (fun a b => pyStrLe b.1 a.1) = pre ++ q :: post →
        (∀ x ∈ pre, x.2 = BackupFile.corrupt) →
        (∀ seen, q.2 = BackupFile.parsed seen →
          load_previous_seen_ts files = .ok (seen.getD []))
        ∧ (∀ e, q.2 = BackupFile.unreadable e →
          load_previous_seen_ts files = .error e))
    ∧ ((∀ x ∈ files, x.2 = BackupFile.corrupt) →
        load_previous_seen_ts files = .ok []) := by
  refine ⟨?_, ?_, ?_⟩
  · exact List.sorted_mergeSort
      (fun a b c h1 h2 => pyStrLe_trans c.1 b.1 a.1 h2 h1)
      (fun a b => by rw [Bool.or_comm]; exact pyStrLe_total a.1 b.1) files
  · intro pre q post hsplit hpre
    have hload : load_previous_seen_ts files =
        scanFiles (pre.map Prod.snd ++ q.2 :: post.map Prod.snd) := by
      unfold load_previous_seen_ts
      rw [hsplit, List.map_append, List.map_cons]
    have hskip : scanFiles (pre.map Prod.snd ++ q.2 :: post.map Prod.snd) =
        scanFiles (q.2 :: post.map Prod.snd) :=
      scanFiles_skip_corrupt _ _ (by
        intro x hx
        rcases List.mem_map.mp hx with ⟨p, hp, hpx⟩
        rw [← hpx]
        exact hpre p hp)
    constructor
    · intro seen hq
      rw [hload, hskip, hq]
      rfl
    · intro e hq
      rw [hload, hskip, hq]
      rfl
  · intro hall
    unfold load_previous_seen_ts
    apply scanFiles_all_corrupt
    intro x hx
    rcases List.mem_map.mp hx with ⟨p, hp, hpx⟩
    rw [← hpx]
    exact hall p (List.mem_mergeSort.mp hp)

/-- C6 witness: a directory whose only artifact is corrupt yields the empty
seen-set (cold start, not fatal). -/
theorem c6_load_previous_scan_witness :
    load_previous_seen_ts [("2026-01-02.json", BackupFile.corrupt)] = .ok [] :=
  (c6_load_previous_scan [("2026-01-02.json", BackupFile.corrupt)]).2.2 (by
    intro x hx
    rw [List.mem_singleton] at hx
    rw [hx])

theorem key_unique {entries : List (String × Msg)}
    (hnd : (entries.map Prod.fst).Nodup) {p q : String × Msg}
    (hp : p ∈ entries) (hq : q ∈ entries) (h : p.1 = q.1) : p = q := by
  induction entries with
  | nil => cases hp
  | cons a rest ih =>
    rw [List.map_cons, List.nodup_cons] at hnd
    rcases List.mem_cons.mp hp with h1 | h1 <;> rcases List.mem_cons.mp hq with h2 | h2
    · rw [h1, h2]
    · exfalso
      apply hnd.1
      rw [h1] at h
      rw [h]
      exact List.mem_map_of_mem Prod.fst h2
    · exfalso
      apply hnd.1
      rw [h2] at h
      rw [← h]
      exact List.mem_map_of_mem Prod.fst h1
    · exact ih hnd.2 h1 h2

theorem inRange_iff (s e : ℚ) (ts : String) :
    inRange s e ts = true ↔ (s ≤ parseTs ts ∧ parseTs ts ≤ e) := by
  unfold inRange
  rw [Bool.and_eq_true, decide_eq_true_eq, decide_eq_true_eq]

theorem contains_eq_false_iff (l : List String) (a : String) :
    l.contains a = false ↔ a ∉ l := by
  rw [← Bool.not_eq_true]
  simp

theorem mem_ts_sortByTs (l : List Enriched) (ts : String) :
    ts ∈ (sortByTs l).map Enriched.ts ↔ ts ∈ l.map Enriched.ts :=
  ((sortByTs_perm l).map Enriched.ts).mem_iff

/-- C1 amended: for every fetched record that is not identified as the
system bot's own message, the reconciler places it in `weekly_messages`
exactly when its parsed timestamp lies in the closed window, regardless of
the previous seen-set; otherwise it lands in `late_thread_replies` exactly
when its id is new and it is a thread reply; all remaining records appear
in neither output. (The original claim fails only for self-bot records,
which are skipped before classification.) -/
theorem c1_reconciler_dispositions (bot_id : Option String)
    (resolve : String → String) (start_ts end_ts : ℚ) (prev : List String)
    (entries : List (String × Msg)) (ts : String) (m : Msg)
    (hk : ∀ p ∈ entries, p.1 = p.2.ts)
    (hnd : (entries.map Prod.fst).Nodup)
    (hm : (ts, m) ∈ entries)
    (hsb : isSelfBot bot_id m = false) :
    (ts ∈ (reconcile bot_id resolve start_ts end_ts prev entries).1.map Enriched.ts ↔
      (start_ts ≤ parseTs ts ∧ parseTs ts ≤ end_ts))
    ∧ (¬(start_ts ≤ parseTs ts ∧ parseTs ts ≤ end_ts) →
      (ts ∈ (reconcile bot_id resolve start_ts end_ts prev entries).2.map Enriched.ts ↔
        (ts ∉ prev ∧ isThreadReply m = true))) := by
  have hts : ts = m.ts := hk (ts, m) hm
  constructor
  · rw [show (reconcile bot_id resolve start_ts end_ts prev entries).1 =
      sortByTs (categorize bot_id resolve start_ts end_ts prev entries).1 from rfl]
    rw [mem_ts_sortByTs, List.mem_map]
    constructor
    · rintro ⟨x, hx, hxts⟩
      rw [mem_categorize_weekly] at hx
      rcases hx with ⟨p, hp, hxe, hpsb, hpir⟩
      have hpts : p.1 = ts := by
        rw [← hxts, hxe, enrich_ts]
        exact hk p hp
      have hpeq : p = (ts, m) := key_unique hnd hp hm hpts
      rw [hpeq] at hpir
      exact (inRange_iff start_ts end_ts ts).mp hpir
    · intro hir
      refine ⟨enrich_message m bot_id resolve, ?_, ?_⟩
      · rw [mem_categorize_weekly]
        exact ⟨(ts, m), hm, rfl, hsb, (inRange_iff start_ts end_ts ts).mpr hir⟩
      · rw [enrich_ts, ← hts]
  · intro hnr
    rw [show (reconcile bot_id resolve start_ts end_ts prev entries).2 =
      sortByTs (categorize bot_id resolve start_ts end_ts prev entries).2 from rfl]
    rw [mem_ts_sortByTs, List.mem_map]
    constructor
    · rintro ⟨x, hx, hxts⟩
      rw [mem_categorize_late] at hx
      rcases hx with ⟨p, hp, hxe, hpsb, hpir, hpnew, hprep⟩
      have hpts : p.1 = ts := by
        rw [← hxts, hxe, enrich_ts]
        exact hk p hp
      have hpeq : p = (ts, m) := key_unique hnd hp hm hpts
      rw [hpeq] at hpnew hprep
      exact ⟨(contains_eq_false_iff prev ts).mp hpnew, hprep⟩
    · rintro ⟨hnew, hrep⟩
      refine ⟨enrich_message m bot_id resolve, ?_, ?_⟩
      · rw [mem_categorize_late]
        refine ⟨(ts, m), hm, rfl, hsb, ?_, (contains_eq_false_iff prev ts).mpr hnew, hrep⟩
        rw [← Bool.not_eq_true]
        intro hc
        exact hnr ((inRange_iff start_ts end_ts ts).mp hc)
      · rw [enrich_ts, ← hts]

/-- C1 counterexample: with the bot id resolved to "B07", the fetched record
`selfBotMsg` has its timestamp inside the window [200, 300] yet the
reconciler places it in neither `weekly_messages` nor
`late_thread_replies` — it is skipped before classification, contradicting
"in `in_window` exactly when the timestamp is in the window". -/
theorem c1_reconciler_dispositions_counterexample :
    ((200 : ℚ) ≤ parseTs "250.0" ∧ parseTs "250.0" ≤ (300 : ℚ))
    ∧ reconcile (some "B07") (fun s => s) 200 300 [] [("250.0", selfBotMsg)] =
        ([], []) := by
  have hval : parseTs "250.0" = (250 : ℚ) := by
    simp [parseTs, splitDot, digitsToNat]
  constructor
  · rw [hval]
    constructor <;> norm_num
  · have h : categorize (some "B07") (fun s : String => s) 200 300 []
        [("250.0", selfBotMsg)] = ([], []) := by
      simp [categorize, enrich_is_self_bot, isSelfBot, selfBotMsg]
    unfold reconcile
    rw [h]
    simp [sortByTs]

/-- C1 witness: the amended characterisation applied to a concrete ordinary
record with an in-window timestamp places it in `weekly_messages`. -/
theorem c1_reconciler_dispositions_witness :
    "250.0" ∈ (reconcile none (fun s => s) 200 300 []
      [("250.0", plainMsg)]).1.map Enriched.ts :=
  (c1_reconciler_dispositions none (fun s => s) 200 300 [] [("250.0", plainMsg)]
    "250.0" plainMsg
    (by intro p hp; rw [List.mem_singleton] at hp; rw [hp]; rfl)
    (by decide)
    (List.mem_singleton.mpr rfl)
    rfl).1.mpr
    (by have hval : parseTs "250.0" = (250 : ℚ) := by
          simp [parseTs, splitDot, digitsToNat]
        rw [hval]
        constructor <;> norm_num)

/-- C2: under the dict invariants (keys are the messages' ids and are
distinct), the two reconciler outputs carry globally distinct ids (so no id
appears in both lists, and none twice in one list), every output id comes
from a fetched record, and every fetched record's id is in exactly one of
the three dispositions weekly / late / neither (discarded). -/
theorem c2_partition_disjoint (bot_id : Option String) (resolve : String → String)
    (start_ts end_ts : ℚ) (prev : List String) (entries : List (String × Msg))
    (hk : ∀ p ∈ entries, p.1 = p.2.ts)
    (hnd : (entries.map Prod.fst).Nodup) :
    ((reconcile bot_id resolve start_ts end_ts prev entries).1.map Enriched.ts ++
      (reconcile bot_id resolve start_ts end_ts prev entries).2.map Enriched.ts).Nodup
    ∧ (∀ x ∈ (reconcile bot_id resolve start_ts end_ts prev entries).1,
        x.ts ∈ entries.map Prod.fst)
    ∧ (∀ x ∈ (reconcile bot_id resolve start_ts end_ts prev entries).2,
        x.ts ∈ entries.map Prod.fst)
    ∧ (∀ p ∈ entries,
        (p.1 ∈ (reconcile bot_id resolve start_ts end_ts prev entries).1.map Enriched.ts ∧
          p.1 ∉ (reconcile bot_id resolve start_ts end_ts prev entries).2.map Enriched.ts)
        ∨ (p.1 ∉ (reconcile bot_id resolve start_ts end_ts prev entries).1.map Enriched.ts ∧
          p.1 ∈ (reconcile bot_id resolve start_ts end_ts prev entries).2.map Enriched.ts)
        ∨ (p.1 ∉ (reconcile bot_id resolve start_ts end_ts prev entries).1.map Enriched.ts ∧
          p.1 ∉ (reconcile bot_id resolve start_ts end_ts prev entries).2.map Enriched.ts)) := by
  have hsub := categorize_ids_subperm bot_id resolve start_ts end_ts prev entries hk
  have hperm1 : ((reconcile bot_id resolve start_ts end_ts prev entries).1.map Enriched.ts).Perm
      ((categorize bot_id resolve start_ts end_ts prev entries).1.map Enriched.ts) :=
    (sortByTs_perm _).map Enriched.ts
  have hperm2 : ((reconcile bot_id resolve start_ts end_ts prev entries).2.map Enriched.ts).Perm
      ((categorize bot_id resolve start_ts end_ts prev entries).2.map Enriched.ts) :=
    (sortByTs_perm _).map Enriched.ts
  have happ := hperm1.append hperm2
  have hnodup : ((reconcile bot_id resolve start_ts end_ts prev entries).1.map Enriched.ts ++
      (reconcile bot_id resolve start_ts end_ts prev entries).2.map Enriched.ts).Nodup :=
    happ.nodup_iff.mpr (subperm_nodup hsub hnd)
  refine ⟨hnodup, ?_, ?_, ?_⟩
  · intro x hx
    have hx2 : x ∈ (categorize bot_id resolve start_ts end_ts prev entries).1 :=
      (sortByTs_perm _).mem_iff.mp hx
    exact hsub.subset (List.mem_append_left _ (List.mem_map_of_mem Enriched.ts hx2))
  · intro x hx
    have hx2 : x ∈ (categorize bot_id resolve start_ts end_ts prev entries).2 :=
      (sortByTs_perm _).mem_iff.mp hx
    exact hsub.subset (List.mem_append_right _ (List.mem_map_of_mem Enriched.ts hx2))
  · intro p hp
    have hdisj := (List.nodup_append.mp hnodup).2.2
    by_cases h1 : p.1 ∈ (reconcile bot_id resolve start_ts end_ts prev entries).1.map Enriched.ts
    · left
      exact ⟨h1, fun h2 => hdisj h1 h2⟩
    · by_cases h2 : p.1 ∈ (reconcile bot_id resolve start_ts end_ts prev entries).2.map Enriched.ts
      · right; left; exact ⟨h1, h2⟩
      · right; right; exact ⟨h1, h2⟩

/-- C2 witness: the disjointness statement applied at a concrete two-record
input with distinct keys. -/
theorem c2_partition_disjoint_witness :
    ((reconcile none (fun s => s) 200 300 []
      [("250.0", plainMsg), ("260.0", { ts := "260.0", text := "x" })]).1.map Enriched.ts ++
     (reconcile none (fun s => s) 200 300 []
      [("250.0", plainMsg), ("260.0", { ts := "260.0", text := "x" })]).2.map Enriched.ts).Nodup :=
  (c2_partition_disjoint none (fun s => s) 200 300 []
    [("250.0", plainMsg), ("260.0", { ts := "260.0", text := "x" })]
    (by
      intro p hp
      rcases List.mem_cons.mp hp with h | h
      · rw [h]; rfl
      · rw [List.mem_singleton] at h; rw [h])
    (by decide)).1

/-- C10: a record identified as authored by the system's own bot is placed
in neither reconciler output even when its timestamp is in the window, its
id is still recorded in the persisted seen-set, and the renderer of
`generate_report.py` emits no line for it. -/
theorem c10_self_bot_excluded (bot_id : Option String) (resolve : String → String)
    (start_ts end_ts : ℚ) (prev : List String) (entries : List (String × Msg))
    (ts : String) (m : Msg)
    (hk : ∀ p ∈ entries, p.1 = p.2.ts)
    (hnd : (entries.map Prod.fst).Nodup)
    (hm : (ts, m) ∈ entries)
    (hsb : isSelfBot bot_id m = true) :
    ts ∉ (reconcile bot_id resolve start_ts end_ts prev entries).1.map Enriched.ts
    ∧ ts ∉ (reconcile bot_id resolve start_ts end_ts prev entries).2.map Enriched.ts
    ∧ ts ∈ (build_backup (reconcile bot_id resolve start_ts end_ts prev entries).1
        (reconcile bot_id resolve start_ts end_ts prev entries).2 entries).seen_ts
    ∧ lineOf bot_id m = none := by
  refine ⟨?_, ?_, ?_, ?_⟩
  · rw [show (reconcile bot_id resolve start_ts end_ts prev entries).1 =
      sortByTs (categorize bot_id resolve start_ts end_ts prev entries).1 from rfl]
    rw [mem_ts_sortByTs, List.mem_map]
    rintro ⟨x, hx, hxts⟩
    rw [mem_categorize_weekly] at hx
    rcases hx with ⟨p, hp, hxe, hpsb, _⟩
    have hpts : p.1 = ts := by
      rw [← hxts, hxe, enrich_ts]
      exact hk p hp
    have hpeq : p = (ts, m) := key_unique hnd hp hm hpts
    rw [hpeq] at hpsb
    rw [hsb] at hpsb
    exact Bool.noConfusion hpsb
  · rw [show (reconcile bot_id resolve start_ts end_ts prev entries).2 =
      sortByTs (categorize bot_id resolve start_ts end_ts prev entries).2 from rfl]
    rw [mem_ts_sortByTs, List.mem_map]
    rintro ⟨x, hx, hxts⟩
    rw [mem_categorize_late] at hx
    rcases hx with ⟨p, hp, hxe, hpsb, _⟩
    have hpts : p.1 = ts := by
      rw [← hxts, hxe, enrich_ts]
      exact hk p hp
    have hpeq : p = (ts, m) := key_unique hnd hp hm hpts
    rw [hpeq] at hpsb
    rw [hsb] at hpsb
    exact Bool.noConfusion hpsb
  · exact List.mem_map_of_mem Prod.fst hm
  · simp [lineOf, hsb]

/-- C10 witness: the concrete self-bot record with in-window timestamp is
excluded from the weekly output, kept in the seen-set, and skipped by the
renderer. -/
theorem c10_self_bot_excluded_witness :
    "250.0" ∉ (reconcile (some "B07") (fun s => s) 200 300 []
      [("250.0", selfBotMsg)]).1.map Enriched.ts
    ∧ "250.0" ∈ (build_backup
        (reconcile (some "B07") (fun s => s) 200 300 [] [("250.0", selfBotMsg)]).1
        (reconcile (some "B07") (fun s => s) 200 300 [] [("250.0", selfBotMsg)]).2
        [("250.0", selfBotMsg)]).seen_ts
    ∧ lineOf (some "B07") selfBotMsg = none :=
  ⟨(c10_self_bot_excluded (some "B07") (fun s => s) 200 300 []
      [("250.0", selfBotMsg)] "250.0" selfBotMsg
      (by intro p hp; rw [List.mem_singleton] at hp; rw [hp]; rfl)
      (by decide) (List.mem_singleton.mpr rfl) (by decide)).1,
   (c10_self_bot_excluded (some "B07") (fun s => s) 200 300 []
      [("250.0", selfBotMsg)] "250.0" selfBotMsg
      (by intro p hp; rw [List.mem_singleton] at hp; rw [hp]; rfl)
      (by decide) (List.mem_singleton.mpr rfl) (by decide)).2.2.1,
   (c10_self_bot_excluded (some "B07") (fun s => s) 200 300 []
      [("250.0", selfBotMsg)] "250.0" selfBotMsg
      (by intro p hp; rw [List.mem_singleton] at hp; rw [hp]; rfl)
      (by decide) (List.mem_singleton.mpr rfl) (by decide)).2.2.2⟩

/-- C4: whenever a run of `backup_main` reaches its single save, the
persisted `seen_ts` is exactly the list of all fetched record ids, the
artifact is keyed by the period's start date (previous Friday), and the
persisted set contains every fetched id that was already in the loaded
seen-set and every newly fetched id. -/
theorem c4_seen_set (today : Date)
    (history : Option String → Except String Page)
    (replies : String → Except String (List Msg))
    (bot_id : Option String) (resolve : String → String)
    (prevFiles : List (String × BackupFile)) (fuel : Nat) (act : SaveAction)
    (h : backup_main today history replies bot_id resolve prevFiles fuel =
      .done (some act)) :
    ∃ all_messages prev_seen,
      fetch_all_messages_with_threads history replies fuel = .done all_messages
      ∧ load_previous_seen_ts prevFiles = .ok prev_seen
      ∧ act.backup.seen_ts = all_messages.map Prod.fst
      ∧ act.filename = dateStrOfDate (get_weekly_range today).1 ++ ".json"
      ∧ (∀ t, ((t ∈ all_messages.map Prod.fst ∧ t ∈ prev_seen) ∨
               (t ∈ all_messages.map Prod.fst ∧ t ∉ prev_seen)) →
          t ∈ act.backup.seen_ts) := by
  unfold backup_main at h
  split_ifs at h with h1 h2
  · exact absurd h (by simp)
  · exact absurd h (by simp)
  · cases hf : fetch_all_messages_with_threads history replies fuel with
    | aborted e => rw [hf] at h; exact absurd h (by simp)
    | fuelOut => rw [hf] at h; exact absurd h (by simp)
    | done ams =>
      rw [hf] at h
      cases hl : load_previous_seen_ts prevFiles with
      | error e => rw [hl] at h; exact absurd h (by simp)
      | ok prev =>
        rw [hl] at h
        simp only [RunResult.done.injEq, Option.some.injEq] at h
        subst h
        refine ⟨ams, prev, rfl, rfl, rfl, rfl, ?_⟩
        intro t ht
        show t ∈ ams.map Prod.fst
        rcases ht with ⟨ht1, _⟩ | ⟨ht1, _⟩ <;> exact ht1

/-- C4 witness: on the demo run the persisted seen-set is exactly the (empty)
fetched id list and the artifact is keyed by the period start 2026-10-02. -/
theorem c4_seen_set_witness :
    demoAct.backup.seen_ts = ([] : List String)
    ∧ demoAct.filename = dateStrOfDate (⟨2026, 10, 2⟩ : Date) ++ ".json" := by
  have hrun : backup_main ⟨2026, 10, 13⟩ quietHistory failingReplies none
      (fun s => s) [] 1 = .done (some demoAct) := by
    unfold backup_main
    rw [if_neg (by decide), if_neg (by decide)]
    have hf : fetch_all_messages_with_threads quietHistory failingReplies 1 =
        RunResult.done ([] : List (String × Msg)) := rfl
    rw [hf]
    have hl : load_previous_seen_ts ([] : List (String × BackupFile)) =
        Except.ok ([] : List String) := by
      simp [load_previous_seen_ts, scanFiles]
    rw [hl]
    rfl
  obtain ⟨ams, prev, hf, hl, hseen, hname, hsup⟩ :=
    c4_seen_set ⟨2026, 10, 13⟩ quietHistory failingReplies none (fun s => s)
      [] 1 demoAct hrun
  have hf0 : fetch_all_messages_with_threads quietHistory failingReplies 1 =
      RunResult.done ([] : List (String × Msg)) := rfl
  rw [hf0] at hf
  injection hf with hams
  constructor
  · rw [hseen, ← hams]
    rfl
  · rw [hname]
    rw [show (get_weekly_range ⟨2026, 10, 13⟩).1 = (⟨2026, 10, 2⟩ : Date) from by decide]
